import Mathlib

/-!
Verification of the aggregation layer of the hope-haven admin dashboards.

The source consists of two React components:
* `AnalyticsDashboard.tsx`, whose `fetchAnalytics` fetches five row sets
  from a hosted data store and derives blog/comment/event counters, a
  top-posts list and a category-percentage breakdown;
* an RSVP management view that fetches registrations and filters them
  client-side by selected event (`filteredRSVPs`).

Every definition below is a shallow embedding of the corresponding source
code.  Row sets are lists of the fields the code selects.  The supabase
client surfaces query failures as a `null` data field rather than a
thrown exception, embedded here as `Option` (a failed fetch is `none`,
guarded by the `if (data)` checks of the code).  JavaScript number
arithmetic in the percentage computation is IEEE-754 binary64; all values
reached there are strictly inside the normal finite range, so each
operation is exactly "round the true rational to 53 significant binary
digits, to nearest, ties to even", which is embedded exactly below using
natural-number mantissa/exponent pairs.
-/

set_option autoImplicit false

namespace HopeHaven

/-! ### Data model: blog / comment / event statistics (lines 27-58) -/

/-- Blog statistic record set by `setBlogStats` (line 28). -/
structure BlogStats where
  total : Nat
  published : Nat
  draft : Nat
  deriving DecidableEq

/-- Comment statistic record set by `setCommentStats` (line 41). -/
structure CommentStats where
  total : Nat
  approved : Nat
  pending : Nat
  deriving DecidableEq

/-- Event statistic record set by `setEventStats` (line 54). -/
structure EventStats where
  total : Nat
  totalRegistrations : Nat
  deriving DecidableEq

/-- Lines 28-32: `total = blogs.length`, `published` and `draft` by exact
string filter on the fetched `status` column. -/
def blogStatsOf (blogs : List String) : BlogStats :=
  { total := blogs.length
    published := (blogs.filter (fun b => b = "published")).length
    draft := (blogs.filter (fun b => b = "draft")).length }

/-- Lines 41-45: same shape for comment rows with `approved` / `pending`. -/
def commentStatsOf (comments : List String) : CommentStats :=
  { total := comments.length
    approved := (comments.filter (fun c => c = "approved")).length
    pending := (comments.filter (fun c => c = "pending")).length }

/-- Line 56: `events.reduce((sum, e) => sum + e.registered, 0)` over the
fetched `registered` column.  This is the sumField operation of the
spec. -/
def sumField (rows : List Nat) : Nat :=
  rows.foldl (fun sum e => sum + e) 0

/-- Lines 54-57: event stats from the fetched `registered` column. -/
def eventStatsOf (events : List Nat) : EventStats :=
  { total := events.length
    totalRegistrations := sumField events }

/-- The partitionByStatus operation of the spec: the common shape of
lines 28-32 and 41-45.  The row set is the list of values of the
status-like field; the result is the total count paired with one count
per recognized category, each count an exact case-sensitive string
match. -/
def partitionByStatus (rows : List String) (categories : List String) :
    Nat × List Nat :=
  (rows.length, categories.map (fun c => (rows.filter (fun r => r = c)).length))

/-! ### Data model: top engaged posts (lines 61-89)

The posts query selects `id, title, category, created_at` of published
posts, ordered by `created_at` descending (performed by the store,
modelled by a stable insertion sort) and limited to 5.  The per-post
comment query selects approved comment ids; `Promise.all` issues the
per-post lookups concurrently and assembles the results by input index.
-/

/-- One row of the `blog_posts` collection. -/
structure BlogPost where
  id : String
  title : String
  category : String
  created_at : Nat
  status : String
  deriving DecidableEq

/-- Placeholder row used only as the default of `List.getD`. -/
def defaultBlogPost : BlogPost := ⟨"", "", "", 0, ""⟩

/-- Insert a post into a list sorted by `created_at` descending, after
any post with the same timestamp (stability). -/
def insertDesc (p : BlogPost) : List BlogPost → List BlogPost
  | [] => [p]
  | q :: rest =>
      if q.created_at < p.created_at then p :: q :: rest
      else q :: insertDesc p rest

/-- Stable sort by `created_at` descending: the `order` clause of the
posts query (line 70). -/
def sortByCreatedDesc : List BlogPost → List BlogPost
  | [] => []
  | p :: rest => insertDesc p (sortByCreatedDesc rest)

/-- Lines 61-71: the posts fetch with `eq(status, published)`,
`order(created_at, descending)` and `limit(5)`, evaluated by the store
against its current rows. -/
def fetchTopPosts (allPosts : List BlogPost) : List BlogPost :=
  (sortByCreatedDesc (allPosts.filter (fun p => p.status = "published"))).take 5

/-- One entry of the `topPosts` array (lines 82-85). -/
structure TopPost where
  title : String
  comments : Nat
  deriving DecidableEq

/-- Lines 76-85: one per-post lookup of approved comment ids followed by
`comments?.length || 0`; a failed lookup (`null` data) yields count 0. -/
def postWithComments (lookup : String → Option (List String)) (p : BlogPost) :
    TopPost :=
  { title := p.title
    comments := match lookup p.id with
      | some cs => cs.length
      | none => 0 }

/-- Lines 74-87: `Promise.all(posts.map(...))`, whose value is the
index-ordered list of per-post results. -/
def postsWithComments (lookup : String → Option (List String))
    (posts : List BlogPost) : List TopPost :=
  posts.map (postWithComments lookup)

/-- Completion-order model for `Promise.all`: task `i` computes `f i` and
writes slot `i` when it completes; `sched` lists the task indices in
completion order. -/
def completeTasks {b : Type} (f : Nat → b) :
    List Nat → (Nat → Option b) → Nat → Option b
  | [], slots => slots
  | i :: rest, slots =>
      completeTasks f rest (fun j => if j = i then some (f i) else slots j)

/-- The join barrier of `Promise.all`: once every task completed, read
the `n` slots back in index order. -/
def joinBarrier {b : Type} (n : Nat) (slots : Nat → Option b) : List (Option b) :=
  (List.range n).map slots

/-! ### Data model: category performance (lines 97-111)

`categoryCounts` embeds the JavaScript object built by the `reduce` of
lines 98-101 (`acc[post.category] = (acc[post.category] || 0) + 1`): an
insertion-ordered association list where an existing key is updated in
place and a new key is appended.  `categoryData` maps `Object.entries`
over it, attaching `percentage: Math.round((count / total) * 100)`.
-/

/-- One step of the reduce of lines 98-101: bump the count stored at key
`c`, appending `(c, 1)` when the key is new. -/
def insertCount : List (String × Nat) → String → List (String × Nat)
  | [], c => [(c, 1)]
  | e :: rest, c =>
      if e.1 = c then (e.1, e.2 + 1) :: rest else e :: insertCount rest c

/-- Lines 98-101: the insertion-ordered category-to-count map. -/
def categoryCounts (cats : List String) : List (String × Nat) :=
  cats.foldl insertCount []

/-- First-match association lookup, used only to state invariants of
`categoryCounts`. -/
def lookupCount : List (String × Nat) → String → Option Nat
  | [], _ => none
  | e :: rest, k => if e.1 = k then some e.2 else lookupCount rest k

/-- Floor of log base 2 by fuel-indexed structural recursion (`natLog2 n`
runs it with fuel `n`, which always suffices because the argument halves
at every step). -/
def log2fuel (fuel : Nat) : Nat → Nat :=
  Nat.rec (motive := fun _ => Nat → Nat) (fun _ => 0)
    (fun _ ih n => if n < 2 then 0 else ih (n / 2) + 1) fuel

/-- Floor of log base 2, with `natLog2 0 = 0`. -/
def natLog2 (n : Nat) : Nat := log2fuel n n

/-- Round the rational `N / D` to the nearest integer, ties to even. -/
def roundHalfEvenDiv (N D : Nat) : Nat :=
  let u := N / D
  let r := N % D
  if 2 * r < D then u
  else if D < 2 * r then u + 1
  else if u % 2 = 0 then u else u + 1

/-- The binary64 result of dividing `n` by `d` (`d > 0`): round `n / d`
to 53 significant binary digits, to nearest, ties to even.  Returned as a
dyadic pair whose value is `result.1 / 2 ^ result.2`. -/
def rnd53pair (n d : Nat) : Nat × Nat :=
  let a := natLog2 n
  let b := natLog2 d
  let dl : Nat := if d * 2 ^ a ≤ n * 2 ^ b then 0 else 1
  let u := roundHalfEvenDiv (n * 2 ^ (52 + b + dl)) (d * 2 ^ a)
  (u * 2 ^ a, 52 + b + dl)

/-- Line 107: `Math.round((count / total) * 100)` in binary64: round
`count / total` to a double, multiply exactly by 100 and round to a
double again, then round that value to the nearest integer with ties
toward positive infinity. -/
def jsPct (count total : Nat) : Nat :=
  let x := rnd53pair count total
  let y := rnd53pair (x.1 * 100) (2 ^ x.2)
  (2 * y.1 + 2 ^ y.2) / (2 ^ y.2 * 2)

/-- Modelled from the spec: exact round-half-up of the rational
`num / den` to the nearest integer, the semantics the spec asserts for
the percentage computation. -/
def roundHalfUpNat (num den : Nat) : Nat :=
  (2 * num + den) / (2 * den)

/-- One entry of the `categoryData` array (lines 104-108). -/
structure CategoryPerf where
  name : String
  views : Nat
  percentage : Nat
  deriving DecidableEq

/-- Lines 98-108: the groupByCategoryWithPercentage operation of the
spec.  The input is the list of `category` values of the published posts
in fetch order; `total = allPosts.length` (line 103). -/
def categoryData (cats : List String) : List CategoryPerf :=
  (categoryCounts cats).map
    (fun e => { name := e.1, views := e.2, percentage := jsPct e.2 cats.length })

/-- Forty published posts, 23 in category A and 17 in category B: the
exact ratio 23/40 gives the percentage 57.5, a round-half-up tie. -/
def c5input : List String := List.replicate 23 "A" ++ List.replicate 17 "B"

/-! ### Data model: the analytics render state (lines 9-14 and 20-117) -/

/-- The five pieces of state of `AnalyticsDashboard`. -/
structure AnalyticsState where
  blogStats : BlogStats
  commentStats : CommentStats
  eventStats : EventStats
  topPosts : List TopPost
  categoryPerformance : List CategoryPerf
  deriving DecidableEq

/-- Lines 9-13: the initial `useState` values; every statistic starts at
its zero value. -/
def initialAnalyticsState : AnalyticsState :=
  { blogStats := ⟨0, 0, 0⟩
    commentStats := ⟨0, 0, 0⟩
    eventStats := ⟨0, 0⟩
    topPosts := []
    categoryPerformance := [] }

/-- Lines 20-117: `fetchAnalytics`.  Each argument is the `data` field of
one fetch (`none` embeds a failed fetch, whose `QueryError` the supabase
client surfaces as `null` data); `lookup` is the per-post approved
comment fetch of lines 76-80.  Each `if (data)` guard updates its own
statistic and a failed fetch leaves that statistic at its initial zero
value, independently of the other four. -/
def fetchAnalytics (blogsData commentsData : Option (List String))
    (eventsData : Option (List Nat)) (postsData : Option (List BlogPost))
    (lookup : String → Option (List String))
    (allPostsData : Option (List String)) : AnalyticsState :=
  { blogStats := match blogsData with
      | some blogs => blogStatsOf blogs
      | none => initialAnalyticsState.blogStats
    commentStats := match commentsData with
      | some comments => commentStatsOf comments
      | none => initialAnalyticsState.commentStats
    eventStats := match eventsData with
      | some events => eventStatsOf events
      | none => initialAnalyticsState.eventStats
    topPosts := match postsData with
      | some posts => postsWithComments lookup posts
      | none => initialAnalyticsState.topPosts
    categoryPerformance := match allPostsData with
      | some cats => categoryData cats
      | none => initialAnalyticsState.categoryPerformance }

/-! ### Data model: the registrations view -/

/-- One row of the `rsvps` query joined with the event title. -/
structure RSVP where
  id : String
  name : String
  email : String
  phone : String
  created_at : String
  event_id : String
  eventTitle : String
  deriving DecidableEq

/-- Lines 77-79 of the RSVP view: identity when the selected event is
`all`, otherwise an exact filter on `event_id`. -/
def filteredRSVPs (selectedEvent : String) (rsvps : List RSVP) : List RSVP :=
  if selectedEvent = "all" then rsvps
  else rsvps.filter (fun r => r.event_id = selectedEvent)

/-! ### Helper lemmas -/

theorem sumField_eq_sum (rows : List Nat) : sumField rows = rows.sum := by
  have h : ∀ (l : List Nat) (a : Nat),
      l.foldl (fun sum e => sum + e) a = a + l.sum := by
    intro l
    induction l with
    | nil => intro a; simp
    | cons x xs ih => intro a; simp [List.foldl_cons, ih, List.sum_cons]; omega
  simpa using h rows 0

/-- Each per-category count of `partitionByStatus` is the number of rows
equal to that category value. -/
theorem partitionByStatus_counts (rows : List String) (categories : List String) :
    (partitionByStatus rows categories).2 =
      categories.map (fun c => rows.count c) := by
  unfold partitionByStatus
  simp only []
  apply List.map_congr_left
  intro c _
  rw [List.count, List.countP_eq_length_filter]
  congr 1

theorem sum_map_add_pointwise {α : Type} (l : List α) (f g : α → Nat) :
    (l.map (fun c => f c + g c)).sum = (l.map f).sum + (l.map g).sum := by
  induction l with
  | nil => simp
  | cons x xs ih => simp [ih]; omega

theorem sum_map_indicator (l : List String) (r : String) :
    (l.map (fun c => if r = c then 1 else 0)).sum = l.count r := by
  induction l with
  | nil => simp
  | cons x xs ih =>
    rw [List.map_cons, List.sum_cons, ih, List.count_cons]
    by_cases h : x = r
    · simp [h]; omega
    · have h2 : ¬ r = x := fun hh => h hh.symm
      simp [h, h2]

/-- Over a duplicate-free category list, the summed per-category counts
equal the number of rows whose value is a recognized category. -/
theorem sum_counts_eq_countP (rows categories : List String)
    (hnd : categories.Nodup) :
    (categories.map (fun c => rows.count c)).sum =
      rows.countP (fun r => decide (r ∈ categories)) := by
  induction rows with
  | nil => simp
  | cons r rs ih =>
    have hcnt : categories.map (fun c => (r :: rs).count c) =
        categories.map (fun c => rs.count c + if r = c then 1 else 0) := by
      apply List.map_congr_left
      intro c _
      rw [List.count_cons]
      simp
    rw [hcnt, sum_map_add_pointwise, ih, List.countP_cons]
    have hind : (categories.map (fun c => if r = c then 1 else 0)).sum =
        if r ∈ categories then 1 else 0 := by
      rw [sum_map_indicator]
      by_cases hr : r ∈ categories
      · rw [List.count_eq_one_of_mem hnd hr, if_pos hr]
      · rw [List.count_eq_zero_of_not_mem hr, if_neg hr]
    rw [hind]
    simp

theorem insertDesc_length (p : BlogPost) (l : List BlogPost) :
    (insertDesc p l).length = l.length + 1 := by
  induction l with
  | nil => rfl
  | cons q rest ih =>
    by_cases h : q.created_at < p.created_at
    · simp [insertDesc, h]
    · simp [insertDesc, h, ih]

theorem sortByCreatedDesc_length (l : List BlogPost) :
    (sortByCreatedDesc l).length = l.length := by
  induction l with
  | nil => rfl
  | cons p rest ih =>
    simp [sortByCreatedDesc, insertDesc_length, ih]

theorem completeTasks_not_mem {b : Type} (f : Nat → b) (sched : List Nat)
    (slots : Nat → Option b) (j : Nat) (hj : j ∉ sched) :
    completeTasks f sched slots j = slots j := by
  induction sched generalizing slots with
  | nil => rfl
  | cons i rest ih =>
    have hji : j ≠ i := fun h => hj (h ▸ List.mem_cons_self i rest)
    have hjr : j ∉ rest := fun h => hj (List.mem_cons_of_mem i h)
    rw [completeTasks, ih _ hjr]
    simp [hji]

/-- A slot holds the result of its own task as soon as that task appears
anywhere in the completion schedule, regardless of position. -/
theorem completeTasks_mem {b : Type} (f : Nat → b) (sched : List Nat)
    (slots : Nat → Option b) (j : Nat) (hj : j ∈ sched) :
    completeTasks f sched slots j = some (f j) := by
  induction sched generalizing slots with
  | nil => simp at hj
  | cons i rest ih =>
    by_cases hjr : j ∈ rest
    · rw [completeTasks, ih _ hjr]
    · have hji : j = i := by
        rcases List.mem_cons.mp hj with h | h
        · exact h
        · exact absurd h hjr
      subst hji
      rw [completeTasks, completeTasks_not_mem f rest _ j hjr]
      simp

theorem range_map_getD {α β : Type} (l : List α) (d : α) (F : α → β) :
    (List.range l.length).map (fun i => F (l.getD i d)) = l.map F := by
  induction l with
  | nil => simp
  | cons a as ih =>
    rw [List.length_cons, List.range_succ_eq_map]
    rw [List.map_cons, List.map_map]
    have hcomp : ((fun i => F ((a :: as).getD i d)) ∘ Nat.succ) =
        (fun i => F (as.getD i d)) := by
      funext i
      simp
    rw [hcomp, ih]
    simp

theorem log2fuel_succ (fuel n : Nat) :
    log2fuel (fuel + 1) n = if n < 2 then 0 else log2fuel fuel (n / 2) + 1 := rfl

theorem log2fuel_spec (fuel : Nat) : ∀ n : Nat, 1 ≤ n → n ≤ fuel →
    2 ^ log2fuel fuel n ≤ n ∧ n < 2 ^ (log2fuel fuel n + 1) := by
  induction fuel with
  | zero => intro n h1 h2; omega
  | succ fuel ih =>
    intro n h1 h2
    rw [log2fuel_succ]
    by_cases hn : n < 2
    · rw [if_pos hn]
      simp
      omega
    · rw [if_neg hn]
      have hhalf : 1 ≤ n / 2 := by omega
      have hfuel : n / 2 ≤ fuel := by omega
      obtain ⟨hl, hu⟩ := ih (n / 2) hhalf hfuel
      constructor
      · rw [pow_succ]
        have : 2 ^ log2fuel fuel (n / 2) * 2 ≤ n / 2 * 2 := by omega
        omega
      · rw [pow_succ]
        have h3 : n / 2 + 1 ≤ 2 ^ (log2fuel fuel (n / 2) + 1) := hu
        have : (n / 2 + 1) * 2 ≤ 2 ^ (log2fuel fuel (n / 2) + 1) * 2 := by omega
        omega

theorem natLog2_spec (n : Nat) (h : 1 ≤ n) :
    2 ^ natLog2 n ≤ n ∧ n < 2 ^ (natLog2 n + 1) :=
  log2fuel_spec n n h le_rfl

/-- The rounded quotient is within half of the true quotient, stated
without subtraction: `2 u D ≤ 2 N + D` and `2 N ≤ 2 u D + D`. -/
theorem roundHalfEvenDiv_bounds (N D : Nat) (hD : 0 < D) :
    2 * roundHalfEvenDiv N D * D ≤ 2 * N + D ∧
    2 * N ≤ 2 * roundHalfEvenDiv N D * D + D := by
  have hdm := Nat.div_add_mod N D
  have hlt : N % D < D := Nat.mod_lt _ hD
  unfold roundHalfEvenDiv
  simp only []
  generalize N / D = u at *
  generalize N % D = r at *
  by_cases h1 : 2 * r < D
  · rw [if_pos h1]
    constructor <;> nlinarith
  · rw [if_neg h1]
    by_cases h2 : D < 2 * r
    · rw [if_pos h2]
      constructor <;> nlinarith
    · rw [if_neg h2]
      by_cases h3 : u % 2 = 0
      · rw [if_pos h3]
        constructor <;> nlinarith
      · rw [if_neg h3]
        constructor <;> nlinarith

/-- The scale factor of `rnd53pair` in the widened branch: `d` is below
`2 ^ (natLog2 d + 1)` and `2 ^ natLog2 n` is at most `n`. -/
theorem rnd53_scale (n d : Nat) (hn : 1 ≤ n) (hd : 1 ≤ d) :
    d * 2 ^ natLog2 n ≤ n * 2 ^ (natLog2 d + 1) := by
  obtain ⟨hnl, _⟩ := natLog2_spec n hn
  obtain ⟨_, hdu⟩ := natLog2_spec d hd
  calc d * 2 ^ natLog2 n ≤ 2 ^ (natLog2 d + 1) * 2 ^ natLog2 n :=
        Nat.mul_le_mul_right _ (le_of_lt hdu)
    _ ≤ 2 ^ (natLog2 d + 1) * n := Nat.mul_le_mul_left _ hnl
    _ = n * 2 ^ (natLog2 d + 1) := Nat.mul_comm _ _

theorem rnd53pair_err_core (n d a bdl : Nat) (hd : 0 < d)
    (hsc : d * 2 ^ a ≤ n * 2 ^ bdl) :
    roundHalfEvenDiv (n * 2 ^ (52 + bdl)) (d * 2 ^ a) * 2 ^ a * d * 2 ^ 53 ≤
      n * 2 ^ (52 + bdl) * 2 ^ 53 + n * 2 ^ (52 + bdl) ∧
    n * 2 ^ (52 + bdl) * 2 ^ 53 ≤
      roundHalfEvenDiv (n * 2 ^ (52 + bdl)) (d * 2 ^ a) * 2 ^ a * d * 2 ^ 53 +
        n * 2 ^ (52 + bdl) := by
  have hD : 0 < d * 2 ^ a := by positivity
  obtain ⟨h1, h2⟩ := roundHalfEvenDiv_bounds (n * 2 ^ (52 + bdl)) (d * 2 ^ a) hD
  have hsc52 : (d * 2 ^ a) * 2 ^ 52 ≤ n * 2 ^ (52 + bdl) := by
    have := Nat.mul_le_mul_right (2 ^ 52) hsc
    calc (d * 2 ^ a) * 2 ^ 52 ≤ n * 2 ^ bdl * 2 ^ 52 := this
      _ = n * 2 ^ (52 + bdl) := by rw [pow_add]; ring
  have h1s := Nat.mul_le_mul_right (2 ^ 52) h1
  have h2s := Nat.mul_le_mul_right (2 ^ 52) h2
  have hp : (2 : Nat) ^ 53 = 2 * 2 ^ 52 := by norm_num
  constructor
  · rw [hp]; nlinarith [h1s, hsc52]
  · rw [hp]; nlinarith [h2s, hsc52]

theorem rnd53pair_zero (d : Nat) : (rnd53pair 0 d).1 = 0 := by
  unfold rnd53pair roundHalfEvenDiv
  simp only []
  have hz : natLog2 0 = 0 := rfl
  rw [hz]
  norm_num

/-- The binary64 rounding has relative error at most one part in
`2 ^ 53`, stated over the naturals. -/
theorem rnd53pair_err_nat (n d : Nat) (hd : 0 < d) :
    (rnd53pair n d).1 * d * 2 ^ 53 ≤
      n * 2 ^ (rnd53pair n d).2 * 2 ^ 53 + n * 2 ^ (rnd53pair n d).2 ∧
    n * 2 ^ (rnd53pair n d).2 * 2 ^ 53 ≤
      (rnd53pair n d).1 * d * 2 ^ 53 + n * 2 ^ (rnd53pair n d).2 := by
  rcases Nat.eq_zero_or_pos n with hn | hn
  · subst hn
    rw [rnd53pair_zero d]
    simp
  · by_cases hc : d * 2 ^ natLog2 n ≤ n * 2 ^ natLog2 d
    · have hpair : rnd53pair n d =
          (roundHalfEvenDiv (n * 2 ^ (52 + natLog2 d)) (d * 2 ^ natLog2 n) *
            2 ^ natLog2 n, 52 + natLog2 d) := by
        unfold rnd53pair
        simp only [if_pos hc]
        norm_num
      rw [hpair]
      have := rnd53pair_err_core n d (natLog2 n) (natLog2 d) hd hc
      simpa using this
    · have hpair : rnd53pair n d =
          (roundHalfEvenDiv (n * 2 ^ (52 + natLog2 d + 1)) (d * 2 ^ natLog2 n) *
            2 ^ natLog2 n, 52 + natLog2 d + 1) := by
        unfold rnd53pair
        simp only [if_neg hc]
      rw [hpair]
      have hsc := rnd53_scale n d hn hd
      have := rnd53pair_err_core n d (natLog2 n) (natLog2 d + 1) hd hsc
      have harr : 52 + (natLog2 d + 1) = 52 + natLog2 d + 1 := by omega
      rw [harr] at this
      simpa using this

/-- The binary64 rounding has relative error at most one part in
`2 ^ 53`, as rationals. -/
theorem rnd53pair_err (n d : Nat) (hd : 0 < d) :
    |((rnd53pair n d).1 : ℚ) / 2 ^ (rnd53pair n d).2 - (n : ℚ) / d| ≤
      ((n : ℚ) / d) / 2 ^ 53 := by
  obtain ⟨hA, hB⟩ := rnd53pair_err_nat n d hd
  set M := (rnd53pair n d).1 with hM
  set e := (rnd53pair n d).2 with he
  have hAq : (M : ℚ) * d * 2 ^ 53 ≤ n * 2 ^ e * 2 ^ 53 + n * 2 ^ e := by
    exact_mod_cast hA
  have hBq : (n : ℚ) * 2 ^ e * 2 ^ 53 ≤ M * d * 2 ^ 53 + n * 2 ^ e := by
    exact_mod_cast hB
  have h2e : (0:ℚ) < 2 ^ e := by positivity
  have hdq : (0:ℚ) < d := by exact_mod_cast hd
  have hexp : (M:ℚ) / 2 ^ e - n / d = (M * d - n * 2 ^ e) / (2 ^ e * d) := by
    field_simp
    ring
  have hrhs : ((n : ℚ) / d) / 2 ^ 53 = n / (d * 2 ^ 53) := by
    rw [div_div]
  rw [abs_le, hexp, hrhs]
  constructor
  · rw [neg_le, ← neg_div]
    rw [div_le_div_iff (by positivity) (by positivity)]
    have hBd := mul_le_mul_of_nonneg_right hBq (le_of_lt hdq)
    nlinarith [hBd]
  · rw [div_le_div_iff (by positivity) (by positivity)]
    have hAd := mul_le_mul_of_nonneg_right hAq (le_of_lt hdq)
    nlinarith [hAd]

/-- The binary64 evaluation of `Math.round((c / t) * 100)` is within 3/4
of the true percentage `100 c / t`. -/
theorem jsPct_bounds (c t : Nat) (ht : 0 < t) (hct : c ≤ t) :
    |(jsPct c t : ℚ) - 100 * c / t| ≤ 3 / 4 := by
  have hx := rnd53pair_err c t ht
  set x := rnd53pair c t with hxdef
  have hP : 0 < 2 ^ x.2 := Nat.pos_pow_of_pos _ (by norm_num)
  have hy := rnd53pair_err (x.1 * 100) (2 ^ x.2) hP
  set y := rnd53pair (x.1 * 100) (2 ^ x.2) with hydef
  set v : ℚ := (c : ℚ) / t with hv
  set xv : ℚ := (x.1 : ℚ) / 2 ^ x.2 with hxv
  set yv : ℚ := (y.1 : ℚ) / 2 ^ y.2 with hyv
  have hcast : ((x.1 * 100 : ℕ) : ℚ) / ((2 ^ x.2 : ℕ) : ℚ) = 100 * xv := by
    push_cast
    rw [hxv]
    ring
  rw [hcast] at hy
  have hj : jsPct c t = (2 * y.1 + 2 ^ y.2) / (2 ^ y.2 * 2) := rfl
  have hQ2 : 0 < 2 ^ y.2 * 2 := by positivity
  have hs1 : jsPct c t * (2 ^ y.2 * 2) ≤ 2 * y.1 + 2 ^ y.2 := by
    rw [hj]
    exact Nat.div_mul_le_self _ _
  have hs2 : 2 * y.1 + 2 ^ y.2 < (jsPct c t + 1) * (2 ^ y.2 * 2) := by
    rw [hj]
    exact (Nat.div_lt_iff_lt_mul hQ2).mp (Nat.lt_succ_self _)
  have hQq : (0:ℚ) < (2 : ℚ) ^ y.2 := by positivity
  have hs1q : (jsPct c t : ℚ) * (2 ^ y.2 * 2) ≤ 2 * y.1 + 2 ^ y.2 := by
    exact_mod_cast hs1
  have hs2q : (2 * (y.1:ℚ) + 2 ^ y.2) < ((jsPct c t : ℚ) + 1) * (2 ^ y.2 * 2) := by
    exact_mod_cast hs2
  have hhalf1 : (jsPct c t : ℚ) ≤ yv + 1 / 2 := by
    rw [hyv]
    rw [div_add_div _ _ (ne_of_gt hQq) (by norm_num : (2:ℚ) ≠ 0)]
    rw [le_div_iff (by positivity)]
    calc (jsPct c t : ℚ) * (2 ^ y.2 * 2) ≤ 2 * y.1 + 2 ^ y.2 := hs1q
      _ = y.1 * 2 + 2 ^ y.2 * 1 := by ring
  have hhalf2 : yv - 1 / 2 < jsPct c t := by
    rw [hyv]
    rw [sub_lt_iff_lt_add]
    rw [div_lt_iff hQq]
    nlinarith [hs2q]
  have hvub : v ≤ 1 := by
    rw [hv]
    rw [div_le_one (by exact_mod_cast ht)]
    exact_mod_cast hct
  have hv0 : 0 ≤ v := by positivity
  have hxv0 : 0 ≤ xv := by positivity
  have hc53 : (2:ℚ) ^ 53 = 9007199254740992 := by norm_num
  rw [abs_le] at hx hy
  obtain ⟨hx1, hx2⟩ := hx
  obtain ⟨hy1, hy2⟩ := hy
  rw [hc53] at hx1 hx2 hy1 hy2
  have hxvub : xv ≤ 2 := by linarith
  have hgoal : 100 * (c:ℚ) / t = 100 * v := by rw [hv]; ring
  rw [hgoal, abs_le]
  constructor <;> linarith

theorem insertCount_sum (acc : List (String × Nat)) (c : String) :
    ((insertCount acc c).map Prod.snd).sum = (acc.map Prod.snd).sum + 1 := by
  induction acc with
  | nil => simp [insertCount]
  | cons e rest ih =>
    by_cases h : e.1 = c
    · simp [insertCount, h]
      omega
    · simp [insertCount, h, ih]
      omega

theorem foldl_insertCount_sum (l : List String) :
    ∀ acc : List (String × Nat),
      (((l.foldl insertCount acc).map Prod.snd)).sum =
        (acc.map Prod.snd).sum + l.length := by
  induction l with
  | nil => intro acc; simp
  | cons c rest ih =>
    intro acc
    rw [List.foldl_cons, ih (insertCount acc c), insertCount_sum]
    simp
    omega

/-- Every row lands in exactly one bucket: the counts sum to the number
of rows. -/
theorem categoryCounts_sum (cats : List String) :
    ((categoryCounts cats).map Prod.snd).sum = cats.length := by
  unfold categoryCounts
  rw [foldl_insertCount_sum]
  simp

theorem insertCount_lookup_same (acc : List (String × Nat)) (c : String) :
    lookupCount (insertCount acc c) c =
      some ((lookupCount acc c).getD 0 + 1) := by
  induction acc with
  | nil => simp [insertCount, lookupCount]
  | cons e rest ih =>
    by_cases h : e.1 = c
    · simp [insertCount, lookupCount, h]
    · simp [insertCount, lookupCount, h, ih]

theorem insertCount_lookup_ne (acc : List (String × Nat)) (c k : String)
    (h : ¬ k = c) :
    lookupCount (insertCount acc c) k = lookupCount acc k := by
  induction acc with
  | nil =>
    have h2 : ¬ c = k := fun hh => h hh.symm
    simp [insertCount, lookupCount, h2]
  | cons e rest ih =>
    by_cases he : e.1 = c
    · have he2 : ¬ e.1 = k := by rw [he]; exact fun hh => h hh.symm
      have hck : ¬ c = k := fun hh => h hh.symm
      simp [insertCount, lookupCount, he, he2, hck]
    · by_cases hek : e.1 = k
      · simp [insertCount, lookupCount, he, hek, h]
      · simp [insertCount, lookupCount, he, hek, h, ih]

theorem foldl_lookup_some (l : List String) :
    ∀ (acc : List (String × Nat)) (k : String) (v : Nat),
      lookupCount acc k = some v →
      lookupCount (l.foldl insertCount acc) k = some (v + l.count k) := by
  induction l with
  | nil => intro acc k v hv; simpa using hv
  | cons c rest ih =>
    intro acc k v hv
    rw [List.foldl_cons]
    by_cases hk : k = c
    · subst hk
      have hsame := insertCount_lookup_same acc k
      rw [hv] at hsame
      simp at hsame
      have := ih (insertCount acc k) k (v + 1) hsame
      rw [this]
      rw [List.count_cons_self]
      congr 1
      omega
    · have hne := insertCount_lookup_ne acc c k hk
      rw [hv] at hne
      have := ih (insertCount acc c) k v hne
      rw [this]
      rw [List.count_cons_of_ne (fun hh => hk hh)]

theorem foldl_lookup_new (l : List String) :
    ∀ (acc : List (String × Nat)) (k : String),
      lookupCount acc k = none → k ∈ l →
      lookupCount (l.foldl insertCount acc) k = some (l.count k) := by
  induction l with
  | nil => intro acc k _ hk; simp at hk
  | cons c rest ih =>
    intro acc k hnone hk
    rw [List.foldl_cons]
    by_cases hkc : k = c
    · subst hkc
      have hsame := insertCount_lookup_same acc k
      rw [hnone] at hsame
      simp at hsame
      have := foldl_lookup_some rest (insertCount acc k) k 1 hsame
      rw [this]
      rw [List.count_cons_self]
      congr 1
      omega
    · have hne := insertCount_lookup_ne acc c k hkc
      rw [hnone] at hne
      have hkrest : k ∈ rest := by
        rcases List.mem_cons.mp hk with h | h
        · exact absurd h hkc
        · exact h
      have := ih (insertCount acc c) k hne hkrest
      rw [this]
      rw [List.count_cons_of_ne (fun hh => hkc hh)]

theorem foldl_lookup_none (l : List String) :
    ∀ (acc : List (String × Nat)) (k : String),
      lookupCount acc k = none → k ∉ l →
      lookupCount (l.foldl insertCount acc) k = none := by
  induction l with
  | nil => intro acc k hv _; simpa using hv
  | cons c rest ih =>
    intro acc k hnone hk
    rw [List.foldl_cons]
    have hkc : ¬ k = c := fun h => hk (h ▸ List.mem_cons_self c rest)
    have hne := insertCount_lookup_ne acc c k hkc
    rw [hnone] at hne
    exact ih (insertCount acc c) k hne (fun h => hk (List.mem_cons_of_mem c h))

theorem insertCount_keys (acc : List (String × Nat)) (c : String) :
    (insertCount acc c).map Prod.fst =
      if c ∈ acc.map Prod.fst then acc.map Prod.fst
      else acc.map Prod.fst ++ [c] := by
  induction acc with
  | nil => simp [insertCount]
  | cons e rest ih =>
    by_cases h : e.1 = c
    · simp [insertCount, h]
    · have hne : ¬ c = e.1 := fun hh => h hh.symm
      by_cases hmem : c ∈ rest.map Prod.fst
      · simp [insertCount, h, ih, hmem, hne]
      · simp [insertCount, h, ih, hmem, hne]

theorem insertCount_keys_nodup (acc : List (String × Nat)) (c : String)
    (h : (acc.map Prod.fst).Nodup) :
    ((insertCount acc c).map Prod.fst).Nodup := by
  rw [insertCount_keys]
  by_cases hmem : c ∈ acc.map Prod.fst
  · rwa [if_pos hmem]
  · rw [if_neg hmem]
    rw [List.nodup_append]
    exact ⟨h, List.nodup_singleton c, by simpa using hmem⟩

theorem foldl_keys_nodup (l : List String) :
    ∀ acc : List (String × Nat), (acc.map Prod.fst).Nodup →
      ((l.foldl insertCount acc).map Prod.fst).Nodup := by
  induction l with
  | nil => intro acc h; simpa using h
  | cons c rest ih =>
    intro acc h
    rw [List.foldl_cons]
    exact ih (insertCount acc c) (insertCount_keys_nodup acc c h)

/-- The JavaScript object has one entry per distinct category. -/
theorem categoryCounts_keys_nodup (cats : List String) :
    ((categoryCounts cats).map Prod.fst).Nodup :=
  foldl_keys_nodup cats [] (by simp)

theorem mem_lookupCount (l : List (String × Nat)) (e : String × Nat)
    (hnd : (l.map Prod.fst).Nodup) (hmem : e ∈ l) :
    lookupCount l e.1 = some e.2 := by
  induction l with
  | nil => simp at hmem
  | cons f rest ih =>
    rcases List.mem_cons.mp hmem with h | h
    · subst h
      simp [lookupCount]
    · by_cases hf : f.1 = e.1
      · exfalso
        have hmem2 : e.1 ∈ rest.map Prod.fst := List.mem_map_of_mem Prod.fst h
        rw [List.map_cons] at hnd
        exact (List.nodup_cons.mp hnd).1 (hf ▸ hmem2)
      · simp [lookupCount, hf]
        exact ih (by rw [List.map_cons] at hnd; exact (List.nodup_cons.mp hnd).2) h

/-- Every entry of `categoryCounts` carries a category that occurs in the
input, with the exact occurrence count. -/
theorem categoryCounts_entry (cats : List String) (e : String × Nat)
    (hmem : e ∈ categoryCounts cats) :
    e.1 ∈ cats ∧ e.2 = cats.count e.1 := by
  have hlk : lookupCount (categoryCounts cats) e.1 = some e.2 :=
    mem_lookupCount _ e (categoryCounts_keys_nodup cats) hmem
  by_cases hin : e.1 ∈ cats
  · have := foldl_lookup_new cats [] e.1 rfl hin
    unfold categoryCounts at hlk
    rw [this] at hlk
    exact ⟨hin, by injection hlk with h; omega⟩
  · have := foldl_lookup_none cats [] e.1 rfl hin
    unfold categoryCounts at hlk
    rw [this] at hlk
    exact absurd hlk (by simp)

theorem sum_map_add_constQ {α : Type} (l : List α) (f : α → ℚ) (k : ℚ) :
    (l.map (fun e => f e + k)).sum = (l.map f).sum + k * l.length := by
  induction l with
  | nil => simp
  | cons x xs ih =>
    simp [ih]
    ring

/-- The summed percentages drift from 100 by at most 3/4 per group. -/
theorem categoryCounts_pct_sum (cats : List String) (h : cats ≠ []) :
    |((categoryCounts cats).map
        (fun e => ((jsPct e.2 cats.length : ℕ) : ℚ))).sum - 100| ≤
      (3 : ℚ) / 4 * (categoryCounts cats).length := by
  set l := categoryCounts cats with hl
  set t := cats.length with ht
  have ht0 : 0 < t := by
    rw [ht]
    exact List.length_pos.mpr h
  have hperc : ∀ e ∈ l, |((jsPct e.2 t : ℕ) : ℚ) - 100 * e.2 / t| ≤ 3 / 4 := by
    intro e he
    have hcount := categoryCounts_entry cats e he
    have hle : e.2 ≤ t := by
      rw [hcount.2, ht]
      exact List.count_le_length e.1 cats
    exact jsPct_bounds e.2 t ht0 hle
  have hup : (l.map (fun e => ((jsPct e.2 t : ℕ) : ℚ))).sum ≤
      (l.map (fun e => 100 * (e.2 : ℚ) / t + 3 / 4)).sum := by
    apply List.sum_le_sum
    intro e he
    have := (abs_le.mp (hperc e he)).2
    linarith
  have hdown : (l.map (fun e => 100 * (e.2 : ℚ) / t - 3 / 4)).sum ≤
      (l.map (fun e => ((jsPct e.2 t : ℕ) : ℚ))).sum := by
    apply List.sum_le_sum
    intro e he
    have := (abs_le.mp (hperc e he)).1
    linarith
  have hmain : (l.map (fun e => 100 * (e.2 : ℚ) / t)).sum = 100 := by
    have hfun : (fun e : String × Nat => 100 * (e.2 : ℚ) / t) =
        (fun e : String × Nat => (100 / t) * (e.2 : ℚ)) := by
      funext e
      ring
    rw [hfun, List.sum_map_mul_left]
    have hcast : (l.map (fun e : String × Nat => ((e.2 : ℕ) : ℚ))).sum = (t : ℚ) := by
      have h1 : l.map (fun e : String × Nat => ((e.2 : ℕ) : ℚ)) =
          (l.map Prod.snd).map (fun n : ℕ => (n : ℚ)) := by
        rw [List.map_map]
        rfl
      rw [h1, ← Nat.cast_list_sum]
      rw [hl, categoryCounts_sum, ht]
    rw [hcast]
    field_simp
  have hsplit1 : (l.map (fun e => 100 * (e.2 : ℚ) / t + 3 / 4)).sum =
      (l.map (fun e => 100 * (e.2 : ℚ) / t)).sum + 3 / 4 * l.length :=
    sum_map_add_constQ l _ _
  have hsplit2 : (l.map (fun e => 100 * (e.2 : ℚ) / t - 3 / 4)).sum =
      (l.map (fun e => 100 * (e.2 : ℚ) / t)).sum + (- (3 / 4)) * l.length := by
    have hfun2 : (fun e : String × Nat => 100 * (e.2 : ℚ) / t - 3 / 4) =
        (fun e : String × Nat => 100 * (e.2 : ℚ) / t + (- (3 / 4))) := by
      funext e
      ring
    rw [hfun2]
    exact sum_map_add_constQ l _ _
  rw [abs_le]
  constructor
  · rw [hsplit2, hmain] at hdown
    linarith
  · rw [hsplit1, hmain] at hup
    linarith

/-- The summed percentages of `categoryData` differ from 100 by at most
the number of groups, in the integers. -/
theorem categoryData_pct_drift (cats : List String) (h : cats ≠ []) :
    |(((categoryData cats).map (fun e => (e.percentage : ℤ))).sum - 100)| ≤
      ((categoryData cats).length : ℤ) := by
  have hmap : (categoryData cats).map (fun e => (e.percentage : ℤ)) =
      (categoryCounts cats).map (fun e => ((jsPct e.2 cats.length : ℕ) : ℤ)) := by
    unfold categoryData
    rw [List.map_map]
    rfl
  have hlen : (categoryData cats).length = (categoryCounts cats).length := by
    unfold categoryData
    rw [List.length_map]
  have hq := categoryCounts_pct_sum cats h
  set l := categoryCounts cats with hl
  have hcastsum : ((l.map (fun e => ((jsPct e.2 cats.length : ℕ) : ℤ))).sum : ℚ) =
      (l.map (fun e => ((jsPct e.2 cats.length : ℕ) : ℚ))).sum := by
    rw [Int.cast_list_sum, List.map_map]
    rfl
  rw [hmap, hlen]
  have hZ : |((l.map (fun e => ((jsPct e.2 cats.length : ℕ) : ℤ))).sum : ℚ) - 100| ≤
      (3 : ℚ) / 4 * l.length := by
    rw [hcastsum]
    exact hq
  have hfin : |((l.map (fun e => ((jsPct e.2 cats.length : ℕ) : ℤ))).sum : ℚ) - 100| ≤
      (l.length : ℚ) := by
    have hlen0 : (0:ℚ) ≤ (l.length : ℚ) := by positivity
    calc |((l.map (fun e => ((jsPct e.2 cats.length : ℕ) : ℤ))).sum : ℚ) - 100| ≤
        (3 : ℚ) / 4 * l.length := hZ
      _ ≤ (l.length : ℚ) := by linarith
  have habs : |(((l.map (fun e => ((jsPct e.2 cats.length : ℕ) : ℤ))).sum - 100 : ℤ) : ℚ)| ≤
      ((l.length : ℤ) : ℚ) := by
    push_cast
    rw [Int.cast_list_sum, List.map_map] at hfin
    rw [List.map_map]
    exact hfin
  exact_mod_cast habs

/-! ### The claims -/

/-- Claim C1: with the event-stats fetch failing (a `QueryError`, which
the supabase client surfaces as `null` data, handled locally by the
`if (events)` guard of lines 53-58) and the other four fetch sequences
succeeding, the final state carries the computed blog stats, comment
stats, top posts and category performance, while the event statistic
stays at its zero value. -/
theorem spec_c1_partial_failure (blogs comments : List String)
    (posts : List BlogPost) (lookup : String → Option (List String))
    (cats : List String) :
    fetchAnalytics (some blogs) (some comments) none (some posts) lookup
        (some cats) =
      { blogStats := blogStatsOf blogs
        commentStats := commentStatsOf comments
        eventStats := ⟨0, 0⟩
        topPosts := postsWithComments lookup posts
        categoryPerformance := categoryData cats } ∧
    (fetchAnalytics (some blogs) (some comments) none (some posts) lookup
        (some cats)).eventStats = initialAnalyticsState.eventStats :=
  ⟨rfl, rfl⟩

/-- Claim C2: for every row set and duplicate-free recognized category
set, the sum of the per-category counts is at most the total, with
equality exactly when every row carries a recognized value; unrecognized
values count toward the total but toward no bucket. -/
theorem spec_c2_partition_sum_le_total (rows categories : List String)
    (hnd : categories.Nodup) :
    (partitionByStatus rows categories).2.sum ≤
      (partitionByStatus rows categories).1 ∧
    ((partitionByStatus rows categories).2.sum =
        (partitionByStatus rows categories).1 ↔
      ∀ r ∈ rows, r ∈ categories) := by
  have hc : (partitionByStatus rows categories).2.sum =
      rows.countP (fun r => decide (r ∈ categories)) := by
    rw [partitionByStatus_counts]
    exact sum_counts_eq_countP rows categories hnd
  have ht : (partitionByStatus rows categories).1 = rows.length := rfl
  constructor
  · rw [hc, ht]
    exact List.countP_le_length _
  · rw [hc, ht]
    rw [List.countP_eq_length]
    constructor
    · intro h r hr
      have := h r hr
      simpa using this
    · intro h r hr
      simpa using h r hr

/-- Witness for C2 at a concrete input containing an unrecognized status:
the bucket sum stays below the total and the equality criterion
discriminates correctly. -/
theorem spec_c2_witness :
    (["published", "draft"] : List String).Nodup ∧
    ((partitionByStatus ["published", "weird"] ["published", "draft"]).2.sum ≤
      (partitionByStatus ["published", "weird"] ["published", "draft"]).1 ∧
    ((partitionByStatus ["published", "weird"] ["published", "draft"]).2.sum =
        (partitionByStatus ["published", "weird"] ["published", "draft"]).1 ↔
      ∀ r ∈ (["published", "weird"] : List String),
        r ∈ (["published", "draft"] : List String))) :=
  ⟨by decide, spec_c2_partition_sum_le_total _ _ (by decide)⟩

/-- Claim C3: the top-posts result has length `min 5 (number of published
posts)`, its order is the post-fetch order (same titles in the same
positions), and for every completion schedule covering all per-post
lookups, the join barrier assembles exactly the index-ordered result,
independent of completion order. -/
theorem spec_c3_topEngagedPosts (allPosts : List BlogPost)
    (lookup : String → Option (List String)) (sched : List Nat)
    (hsched : ∀ j ∈ List.range (fetchTopPosts allPosts).length, j ∈ sched) :
    (postsWithComments lookup (fetchTopPosts allPosts)).length =
      min 5 ((allPosts.filter (fun p => p.status = "published")).length) ∧
    (postsWithComments lookup (fetchTopPosts allPosts)).map (fun tp => tp.title) =
      (fetchTopPosts allPosts).map (fun p => p.title) ∧
    joinBarrier (fetchTopPosts allPosts).length
        (completeTasks
          (fun i => postWithComments lookup
            ((fetchTopPosts allPosts).getD i defaultBlogPost))
          sched (fun _ => none)) =
      (postsWithComments lookup (fetchTopPosts allPosts)).map some := by
  refine ⟨?_, ?_, ?_⟩
  · unfold postsWithComments fetchTopPosts
    rw [List.length_map, List.length_take, sortByCreatedDesc_length]
  · unfold postsWithComments
    rw [List.map_map]
    rfl
  · unfold joinBarrier
    have hslot : ∀ j ∈ List.range (fetchTopPosts allPosts).length,
        completeTasks
          (fun i => postWithComments lookup
            ((fetchTopPosts allPosts).getD i defaultBlogPost))
          sched (fun _ => none) j =
          some (postWithComments lookup
            ((fetchTopPosts allPosts).getD j defaultBlogPost)) := by
      intro j hj
      exact completeTasks_mem _ sched _ j (hsched j hj)
    rw [List.map_congr_left hslot]
    have hrange := range_map_getD (fetchTopPosts allPosts) defaultBlogPost
      (fun p => some (postWithComments lookup p))
    rw [hrange]
    unfold postsWithComments
    rw [List.map_map]
    rfl

/-- Witness for C3: three posts of which two are published, with the
per-post lookups completing in reverse order `[1, 0]`. -/
theorem spec_c3_witness :
    (∀ j ∈ List.range (fetchTopPosts
        [⟨"1", "Alpha", "news", 10, "published"⟩,
         ⟨"3", "Gamma", "news", 7, "draft"⟩,
         ⟨"2", "Beta", "news", 5, "published"⟩]).length, j ∈ [1, 0]) ∧
    ((postsWithComments (fun _ => (none : Option (List String)))
        (fetchTopPosts
          [⟨"1", "Alpha", "news", 10, "published"⟩,
           ⟨"3", "Gamma", "news", 7, "draft"⟩,
           ⟨"2", "Beta", "news", 5, "published"⟩])).length =
      min 5 (([⟨"1", "Alpha", "news", 10, "published"⟩,
           ⟨"3", "Gamma", "news", 7, "draft"⟩,
           ⟨"2", "Beta", "news", 5, "published"⟩] : List BlogPost).filter
            (fun p => p.status = "published")).length ∧
    (postsWithComments (fun _ => (none : Option (List String)))
        (fetchTopPosts
          [⟨"1", "Alpha", "news", 10, "published"⟩,
           ⟨"3", "Gamma", "news", 7, "draft"⟩,
           ⟨"2", "Beta", "news", 5, "published"⟩])).map (fun tp => tp.title) =
      (fetchTopPosts
          [⟨"1", "Alpha", "news", 10, "published"⟩,
           ⟨"3", "Gamma", "news", 7, "draft"⟩,
           ⟨"2", "Beta", "news", 5, "published"⟩]).map (fun p => p.title) ∧
    joinBarrier (fetchTopPosts
          [⟨"1", "Alpha", "news", 10, "published"⟩,
           ⟨"3", "Gamma", "news", 7, "draft"⟩,
           ⟨"2", "Beta", "news", 5, "published"⟩]).length
        (completeTasks
          (fun i => postWithComments (fun _ => (none : Option (List String)))
            ((fetchTopPosts
              [⟨"1", "Alpha", "news", 10, "published"⟩,
               ⟨"3", "Gamma", "news", 7, "draft"⟩,
               ⟨"2", "Beta", "news", 5, "published"⟩]).getD i defaultBlogPost))
          [1, 0] (fun _ => none)) =
      (postsWithComments (fun _ => (none : Option (List String)))
        (fetchTopPosts
          [⟨"1", "Alpha", "news", 10, "published"⟩,
           ⟨"3", "Gamma", "news", 7, "draft"⟩,
           ⟨"2", "Beta", "news", 5, "published"⟩])).map some) :=
  ⟨by decide, spec_c3_topEngagedPosts _ _ [1, 0] (by decide)⟩

/-- Claim C4: grouping an empty published-post set yields the empty
sequence (the reduce of lines 98-101 builds an empty object, whose
entries map is empty), so no percentage value and hence no division by
zero is ever produced. -/
theorem spec_c4_empty_input :
    categoryData [] = [] ∧ categoryCounts [] = [] :=
  ⟨rfl, rfl⟩

/-- Counterexample to C5 as stated: on 40 published posts with 23 in
category A, the code computes `Math.round((23 / 40) * 100)` in binary64,
where `(23 / 40) * 100` evaluates to 57.49999999999999 and rounds to 57,
while exact round-half-up of the true ratio 57.5 gives 58. -/
theorem spec_c5_counterexample :
    (categoryData c5input).map (fun e => (e.name, e.views, e.percentage)) =
      [("A", 23, 57), ("B", 17, 43)] ∧
    roundHalfUpNat (100 * 23) 40 = 58 ∧
    c5input.length = 40 ∧ (57 : Nat) ≠ 58 := by
  decide

/-- Claim C5 as amended: each group carries `count` equal to the number
of posts in that group and `percentage` equal to the binary64 evaluation
of `Math.round((count / total) * 100)`, which is within 3/4 of the exact
percentage (hence agrees with exact round-half-up except at ties the
float evaluation misses, such as 23 of 40); the summed percentages still
differ from 100 by at most the number of groups. -/
theorem spec_c5_amended (cats : List String) (h : cats ≠ []) :
    (∀ e ∈ categoryData cats,
        e.name ∈ cats ∧ e.views = cats.count e.name ∧
        e.percentage = jsPct e.views cats.length ∧
        |(e.percentage : ℚ) - 100 * (e.views : ℚ) / (cats.length : ℚ)| ≤ 3 / 4) ∧
    |(((categoryData cats).map (fun e => (e.percentage : ℤ))).sum - 100)| ≤
      ((categoryData cats).length : ℤ) := by
  constructor
  · intro e he
    rcases List.mem_map.mp he with ⟨f, hf, rfl⟩
    obtain ⟨hin, hcnt⟩ := categoryCounts_entry cats f hf
    have ht0 : 0 < cats.length := List.length_pos.mpr h
    have hle : f.2 ≤ cats.length := by
      rw [hcnt]
      exact List.count_le_length f.1 cats
    refine ⟨hin, hcnt, rfl, ?_⟩
    simpa using jsPct_bounds f.2 cats.length ht0 hle
  · exact categoryData_pct_drift cats h

/-- Witness for the amended C5 at the scenario of the spec, categories
`[A, A, B]`. -/
theorem spec_c5_witness :
    (["A", "A", "B"] : List String) ≠ [] ∧
    ((∀ e ∈ categoryData ["A", "A", "B"],
        e.name ∈ (["A", "A", "B"] : List String) ∧
        e.views = (["A", "A", "B"] : List String).count e.name ∧
        e.percentage = jsPct e.views (["A", "A", "B"] : List String).length ∧
        |(e.percentage : ℚ) - 100 * (e.views : ℚ) /
          (((["A", "A", "B"] : List String).length : ℕ) : ℚ)| ≤ 3 / 4) ∧
    |(((categoryData ["A", "A", "B"]).map (fun e => (e.percentage : ℤ))).sum - 100)| ≤
      ((categoryData ["A", "A", "B"]).length : ℤ)) :=
  ⟨by decide, spec_c5_amended ["A", "A", "B"] (by decide)⟩

/-- Claim C6: `sumField` over an empty row sequence returns 0; over any
row sequence it returns the arithmetic sum of the field values; in
particular registered values 10, 5, 0 sum to 15. -/
theorem spec_c6_sumField (rows : List Nat) :
    sumField [] = 0 ∧ sumField rows = rows.sum ∧
    sumField [10, 5, 0] = 15 ∧
    (eventStatsOf [10, 5, 0]).totalRegistrations = 15 :=
  ⟨rfl, sumField_eq_sum rows, rfl, rfl⟩

/-- Claim C7: `partitionByStatus` returns `total` equal to the number of
rows and, per recognized category `c`, the number of rows equal to `c` by
exact case-sensitive comparison; three published plus two draft posts
give total 5, published 3, draft 2 (both for the generic operation and
for the concrete `setBlogStats` computation). -/
theorem spec_c7_partition (rows : List String) (categories : List String) :
    (partitionByStatus rows categories).1 = rows.length ∧
    (partitionByStatus rows categories).2 =
      categories.map (fun c => rows.count c) ∧
    partitionByStatus ["published", "published", "published", "draft", "draft"]
      ["published", "draft"] = (5, [3, 2]) ∧
    blogStatsOf ["published", "published", "published", "draft", "draft"] =
      ⟨5, 3, 2⟩ :=
  ⟨rfl, partitionByStatus_counts rows categories, by decide, by decide⟩

/-- Claim C8: `categoryData` is a pure function of the fetched row list,
so two invocations on identical inputs return identical sequences,
element order included. -/
theorem spec_c8_deterministic (cats1 cats2 : List String)
    (h : cats1 = cats2) : categoryData cats1 = categoryData cats2 := by
  rw [h]

/-- Witness for C8 at a concrete repeated invocation. -/
theorem spec_c8_witness :
    (["sports", "art", "sports"] : List String) = ["sports", "art", "sports"] ∧
    categoryData ["sports", "art", "sports"] =
      categoryData ["sports", "art", "sports"] :=
  ⟨rfl, spec_c8_deterministic _ _ rfl⟩

/-- Claim C9: with `all` selected the filtered list is the fetched RSVP
list unchanged; with any other selected id it is exactly the
order-preserving subsequence of rows whose `event_id` equals the
selection. -/
theorem spec_c9_filter (selectedEvent : String) (rsvps : List RSVP)
    (hne : selectedEvent ≠ "all") :
    filteredRSVPs "all" rsvps = rsvps ∧
    (filteredRSVPs selectedEvent rsvps).Sublist rsvps ∧
    filteredRSVPs selectedEvent rsvps =
      rsvps.filter (fun r => r.event_id = selectedEvent) ∧
    (∀ r, r ∈ filteredRSVPs selectedEvent rsvps ↔
      r ∈ rsvps ∧ r.event_id = selectedEvent) := by
  have hf : filteredRSVPs selectedEvent rsvps =
      rsvps.filter (fun r => r.event_id = selectedEvent) := by
    unfold filteredRSVPs
    rw [if_neg hne]
  refine ⟨by unfold filteredRSVPs; rw [if_pos rfl], ?_, hf, ?_⟩
  · rw [hf]
    exact List.filter_sublist rsvps
  · intro r
    rw [hf, List.mem_filter]
    simp

/-- Witness for C9 at two concrete registrations and the selection
`ev1`. -/
theorem spec_c9_witness :
    ("ev1" : String) ≠ "all" ∧
    (filteredRSVPs "all"
        [⟨"r1", "Ann", "a@x", "1", "d1", "ev1", "Gala"⟩,
         ⟨"r2", "Bob", "b@x", "2", "d2", "ev2", "Fair"⟩] =
      [⟨"r1", "Ann", "a@x", "1", "d1", "ev1", "Gala"⟩,
       ⟨"r2", "Bob", "b@x", "2", "d2", "ev2", "Fair"⟩] ∧
    (filteredRSVPs "ev1"
        [⟨"r1", "Ann", "a@x", "1", "d1", "ev1", "Gala"⟩,
         ⟨"r2", "Bob", "b@x", "2", "d2", "ev2", "Fair"⟩]).Sublist
      [⟨"r1", "Ann", "a@x", "1", "d1", "ev1", "Gala"⟩,
       ⟨"r2", "Bob", "b@x", "2", "d2", "ev2", "Fair"⟩] ∧
    filteredRSVPs "ev1"
        [⟨"r1", "Ann", "a@x", "1", "d1", "ev1", "Gala"⟩,
         ⟨"r2", "Bob", "b@x", "2", "d2", "ev2", "Fair"⟩] =
      ([⟨"r1", "Ann", "a@x", "1", "d1", "ev1", "Gala"⟩,
        ⟨"r2", "Bob", "b@x", "2", "d2", "ev2", "Fair"⟩] : List RSVP).filter
        (fun r => r.event_id = "ev1") ∧
    (∀ r, r ∈ filteredRSVPs "ev1"
        [⟨"r1", "Ann", "a@x", "1", "d1", "ev1", "Gala"⟩,
         ⟨"r2", "Bob", "b@x", "2", "d2", "ev2", "Fair"⟩] ↔
      r ∈ ([⟨"r1", "Ann", "a@x", "1", "d1", "ev1", "Gala"⟩,
            ⟨"r2", "Bob", "b@x", "2", "d2", "ev2", "Fair"⟩] : List RSVP) ∧
        r.event_id = "ev1")) :=
  ⟨by decide, spec_c9_filter "ev1" _ (by decide)⟩

/-- Claim C10: a per-post approved-comment lookup returning no data still
yields an entry for that post with comment count 0; the result list keeps
one entry per fetched post. -/
theorem spec_c10_lookup_failure (lookup : String → Option (List String))
    (posts : List BlogPost) (i : Nat) (hi : i < posts.length)
    (hnone : lookup ((posts.getD i defaultBlogPost).id) = none) :
    (postsWithComments lookup posts).length = posts.length ∧
    (postsWithComments lookup posts).getD i ⟨"", 0⟩ =
      ⟨(posts.getD i defaultBlogPost).title, 0⟩ := by
  constructor
  · unfold postsWithComments
    rw [List.length_map]
  · have hlen : i < (postsWithComments lookup posts).length := by
      unfold postsWithComments
      rw [List.length_map]
      exact hi
    rw [List.getD_eq_getElem _ _ hi] at hnone
    rw [List.getD_eq_getElem _ _ hlen, List.getD_eq_getElem _ _ hi]
    unfold postsWithComments
    rw [List.getElem_map]
    unfold postWithComments
    rw [hnone]

/-- Witness for C10: a single published post whose comment lookup fails
still appears with count 0. -/
theorem spec_c10_witness :
    (0 < ([⟨"9", "Solo", "misc", 3, "published"⟩] : List BlogPost).length) ∧
    ((fun _ => (none : Option (List String)))
        ((([⟨"9", "Solo", "misc", 3, "published"⟩] : List BlogPost).getD 0
          defaultBlogPost).id) = none) ∧
    ((postsWithComments (fun _ => (none : Option (List String)))
        [⟨"9", "Solo", "misc", 3, "published"⟩]).length =
      ([⟨"9", "Solo", "misc", 3, "published"⟩] : List BlogPost).length ∧
    (postsWithComments (fun _ => (none : Option (List String)))
        [⟨"9", "Solo", "misc", 3, "published"⟩]).getD 0 ⟨"", 0⟩ =
      ⟨(([⟨"9", "Solo", "misc", 3, "published"⟩] : List BlogPost).getD 0
          defaultBlogPost).title, 0⟩) :=
  ⟨by decide, rfl, spec_c10_lookup_failure _ _ 0 (by decide) rfl⟩

end HopeHaven
